import Mathlib

/-!
Verification of the multi-process log-aggregation pipeline of the
`ksg-logging` repository (`src/mproc_logging.py` and the rotating-file
configuration of `src/rotating_logging.py`).

The embedding is shallow: the listener loop of `listener_process` becomes a
recursive function over the finite trace of interactions with the queue, the
orchestration of `main` becomes an explicit list of steps, the workers of
`worker_process` become event-list producers, and the rotating sink becomes an
explicit state record.  The rotation algorithm and the queue are provided by
the Python standard library (they are not part of this repository's sources),
so those two components are modelled from the specification text, as marked in
their doc comments.
-/

namespace KsgLogging

/-! ### Data model: log records, constants of `src/mproc_logging.py` -/

/-- Severity value of `logging.DEBUG` in the Python logging module. -/
def DEBUG : Nat := 10

/-- `LEVEL = logging.DEBUG` (src/mproc_logging.py line 15). -/
def LEVEL : Nat := DEBUG

/-- `FILEROTATION_MAXBYTES = 5000` (src/mproc_logging.py line 17). -/
def FILEROTATION_MAXBYTES : Nat := 5000

/-- `FILEROTATION_NBACKUPS = 3` (src/mproc_logging.py line 18). -/
def FILEROTATION_NBACKUPS : Nat := 3

/-- `LOGGERS = ['banana', 'ghostwriter', 'superman']` (src/mproc_logging.py line 14). -/
def LOGGERS : List String := ["banana", "ghostwriter", "superman"]

/-- A `logging.LogRecord` as it travels through the queue: logger name,
numeric severity, message text and originating process id. -/
structure LogRecord where
  name : String
  levelno : Nat
  msg : String
  process : Nat
deriving DecidableEq

/-- One interaction of the listener with the queue, as seen from inside the
`while True` loop of `listener_process` (src/mproc_logging.py lines 34-45):
either `queue.get()` raises, or it returns an item — a record, or the `None`
sentinel (modelled as `Option.none`). -/
inductive PopEvent where
  /-- `queue.get()` raises an exception. -/
  | raise : PopEvent
  /-- `queue.get()` returns `some r` (a record) or `none` (the sentinel). -/
  | item : Option LogRecord → PopEvent
deriving DecidableEq

/-- What a finished listener run produced: the records successfully dispatched
through `logger.handle`, in the order they were popped, and the number of
diagnostic tracebacks printed to stderr by the `except` clause. -/
structure ListenerResult where
  handled : List LogRecord
  diagnostics : Nat
deriving DecidableEq

/-- The body of `listener_process` after configuration
(src/mproc_logging.py lines 34-45), run against a finite trace of queue
interactions.  `fails r` models `logger.handle(record)` raising on record `r`
(an unwritable record); the surrounding `try`/`except` prints a diagnostic and
continues.  The loop breaks exactly on reading `None`; the result carries the
still-unread remainder of the trace.  If the trace is exhausted without a
sentinel, the listener is still blocked in `queue.get()`: the run does not
terminate, modelled by `none`. -/
def listener_loop (fails : LogRecord → Bool) :
    List PopEvent → Option (ListenerResult × List PopEvent)
  | [] => none
  | PopEvent.raise :: rest =>
      match listener_loop fails rest with
      | none => none
      | some (res, unread) =>
          some ({ res with diagnostics := res.diagnostics + 1 }, unread)
  | PopEvent.item none :: rest => some ({ handled := [], diagnostics := 0 }, rest)
  | PopEvent.item (some r) :: rest =>
      match listener_loop fails rest with
      | none => none
      | some (res, unread) =>
          if fails r then
            some ({ res with diagnostics := res.diagnostics + 1 }, unread)
          else
            some ({ res with handled := r :: res.handled }, unread)

/-- The records a trace fragment contributes to `handled` when the listener
scans it without meeting the sentinel: every successfully handled record, in
pop order. -/
def scanHandled (fails : LogRecord → Bool) : List PopEvent → List LogRecord
  | [] => []
  | PopEvent.raise :: rest => scanHandled fails rest
  | PopEvent.item none :: rest => scanHandled fails rest
  | PopEvent.item (some r) :: rest =>
      if fails r then scanHandled fails rest else r :: scanHandled fails rest

/-- The diagnostics a trace fragment contributes: one per raising pop and one
per record whose handling fails. -/
def scanDiag (fails : LogRecord → Bool) : List PopEvent → Nat
  | [] => 0
  | PopEvent.raise :: rest => scanDiag fails rest + 1
  | PopEvent.item none :: rest => scanDiag fails rest
  | PopEvent.item (some r) :: rest =>
      if fails r then scanDiag fails rest + 1 else scanDiag fails rest

/-- Embeds a record list as the queue trace of successful pops delivering it. -/
def asItems (events : List LogRecord) : List PopEvent :=
  events.map (fun r => PopEvent.item (some r))

theorem listener_loop_append (fails : LogRecord → Bool) (pre l : List PopEvent)
    (hpre : PopEvent.item none ∉ pre) :
    listener_loop fails (pre ++ l) =
      (listener_loop fails l).map
        (fun ru => ({ handled := scanHandled fails pre ++ ru.1.handled,
                      diagnostics := scanDiag fails pre + ru.1.diagnostics }, ru.2)) := by
  induction pre with
  | nil =>
      cases h : listener_loop fails l with
      | none => simp [h]
      | some ru => simp [h, scanHandled, scanDiag]
  | cons e pre ih =>
      have hpre' : PopEvent.item none ∉ pre := fun hmem => hpre (List.mem_cons_of_mem _ hmem)
      have hne : e ≠ PopEvent.item none := fun he => hpre (he ▸ List.mem_cons_self _ _)
      cases e with
      | raise =>
          cases h : listener_loop fails l with
          | none => simp [listener_loop, ih hpre', h]
          | some ru =>
              simp [listener_loop, ih hpre', h, scanHandled, scanDiag]
              omega
      | item o =>
          cases o with
          | none => exact absurd rfl hne
          | some r =>
              cases h : listener_loop fails l with
              | none => simp [listener_loop, ih hpre', h]
              | some ru =>
                  by_cases hf : fails r <;>
                    simp [listener_loop, ih hpre', h, scanHandled, scanDiag, hf]
                  omega

theorem asItems_no_sentinel (events : List LogRecord) :
    PopEvent.item none ∉ asItems events := by
  simp [asItems]

theorem scanHandled_asItems (fails : LogRecord → Bool) (events : List LogRecord) :
    scanHandled fails (asItems events) = events.filter (fun r => !fails r) := by
  induction events with
  | nil => simp [asItems, scanHandled]
  | cons r es ih =>
      by_cases hf : fails r <;> simp [asItems, scanHandled, hf, List.filter] at ih ⊢ <;>
        simpa [asItems] using ih

theorem scanDiag_asItems (fails : LogRecord → Bool) (events : List LogRecord) :
    scanDiag fails (asItems events) = (events.filter (fun r => fails r)).length := by
  induction events with
  | nil => simp [asItems, scanDiag]
  | cons r es ih =>
      by_cases hf : fails r <;> simp [asItems, scanDiag, hf, List.filter] at ih ⊢ <;>
        simpa [asItems] using ih

/-- Runs that reach a sentinel: the listener handles exactly the scanned
records, counts the scanned diagnostics, breaks at the sentinel and leaves the
rest of the trace unread. -/
theorem listener_loop_reaches_sentinel (fails : LogRecord → Bool)
    (pre rest : List PopEvent) (hpre : PopEvent.item none ∉ pre) :
    listener_loop fails (pre ++ PopEvent.item none :: rest) =
      some ({ handled := scanHandled fails pre, diagnostics := scanDiag fails pre }, rest) := by
  rw [listener_loop_append fails pre _ hpre]
  simp [listener_loop]

/-- The listener run terminates exactly when the trace contains the sentinel:
there is no exception-based exit path. -/
theorem listener_loop_isSome_iff (fails : LogRecord → Bool) (l : List PopEvent) :
    (listener_loop fails l).isSome ↔ PopEvent.item none ∈ l := by
  induction l with
  | nil => simp [listener_loop]
  | cons e rest ih =>
      cases e with
      | raise =>
          cases h : listener_loop fails rest with
          | none => simp [listener_loop, h] at ih ⊢; simpa using ih
          | some ru => simp [listener_loop, h] at ih ⊢; exact ih
      | item o =>
          cases o with
          | none => simp [listener_loop]
          | some r =>
              cases h : listener_loop fails rest with
              | none => simp [listener_loop, h] at ih ⊢; simpa using ih
              | some ru =>
                  by_cases hf : fails r <;>
                    simp [listener_loop, h, hf] at ih ⊢ <;> exact ih

/-- Claim C1: for every sequence of events pushed into the queue followed by
exactly one sentinel (`None`), the listener loop handles every event exactly
once, in the order popped, and terminates after reading the sentinel; whatever
sits in the queue after the sentinel is never read, so no event is delivered
to the sink after the sentinel and the sentinel is the last item the listener
ever reads. -/
theorem C1_listener_processes_all_then_stops (events : List LogRecord)
    (rest : List PopEvent) :
    listener_loop (fun _ => false) (asItems events ++ PopEvent.item none :: rest) =
      some ({ handled := events, diagnostics := 0 }, rest) := by
  rw [listener_loop_reaches_sentinel _ _ _ (asItems_no_sentinel events)]
  simp [scanHandled_asItems, scanDiag_asItems]

/-- A concrete record used to instantiate theorems on sample inputs. -/
def sampleRecord (i : Nat) : LogRecord :=
  { name := "banana", levelno := DEBUG, msg := "sample", process := i }

/-- Claim C3: any failure raised while the listener handles a single event is
caught, reported to the diagnostic stream (stderr, not the sink), and the loop
continues with the next item.  If the handling of exactly one event out of `n`
fails, the other `n - 1` events are still handled in order, exactly one
diagnostic record is produced, and the listener still terminates after the
sentinel. -/
theorem C3_single_failure_contained (events : List LogRecord)
    (fails : LogRecord → Bool)
    (h : (events.filter (fun r => fails r)).length = 1) :
    listener_loop fails (asItems events ++ [PopEvent.item none]) =
      some ({ handled := events.filter (fun r => !fails r), diagnostics := 1 }, []) ∧
    (events.filter (fun r => !fails r)).length + 1 = events.length := by
  constructor
  · have := listener_loop_reaches_sentinel fails (asItems events) []
      (asItems_no_sentinel events)
    rw [this, scanHandled_asItems, scanDiag_asItems, h]
  · have := List.length_eq_length_filter_add (l := events) (fun r => fails r)
    simp only [h] at this
    omega

/-- Instantiation of `C3_single_failure_contained`: ten events, the handler
fails on event number 7 only; nine events are handled, one diagnostic is
printed, and the listener stops at the sentinel. -/
theorem C3_single_failure_contained_witness :
    (((List.range 10).map sampleRecord).filter (fun r => r.process == 7)).length = 1 ∧
    (listener_loop (fun r => r.process == 7)
        (asItems ((List.range 10).map sampleRecord) ++ [PopEvent.item none]) =
      some ({ handled := ((List.range 10).map sampleRecord).filter (fun r => !(r.process == 7)),
              diagnostics := 1 }, []) ∧
    (((List.range 10).map sampleRecord).filter (fun r => !(r.process == 7))).length + 1 =
      ((List.range 10).map sampleRecord).length) :=
  ⟨by decide,
    C3_single_failure_contained ((List.range 10).map sampleRecord)
      (fun r => r.process == 7) (by decide)⟩

/-- Claim C9: the listener's `try` encloses the `queue.get()` itself, not only
the dispatch: a pop that raises is also caught and the loop continues (it
contributes one diagnostic and nothing else), so the only way the loop ever
terminates is by popping the sentinel — the run returns a result exactly when
the trace contains the sentinel, and any raising pops before the sentinel do
not prevent normal termination. -/
theorem C9_pop_inside_try (fails : LogRecord → Bool)
    (l pre rest : List PopEvent) (hpre : PopEvent.item none ∉ pre) :
    ((listener_loop fails l).isSome ↔ PopEvent.item none ∈ l) ∧
    listener_loop fails (pre ++ PopEvent.item none :: rest) =
      some ({ handled := scanHandled fails pre, diagnostics := scanDiag fails pre }, rest) :=
  ⟨listener_loop_isSome_iff fails l,
    listener_loop_reaches_sentinel fails pre rest hpre⟩

/-- Instantiation of `C9_pop_inside_try`: a trace whose first pop raises still
terminates at its sentinel, with the raise counted as a diagnostic. -/
theorem C9_pop_inside_try_witness :
    PopEvent.item none ∉ [PopEvent.raise, PopEvent.item (some (sampleRecord 0))] ∧
    (((listener_loop (fun _ => false) [PopEvent.raise, PopEvent.item none]).isSome ↔
        PopEvent.item none ∈ [PopEvent.raise, PopEvent.item none]) ∧
    listener_loop (fun _ => false)
        ([PopEvent.raise, PopEvent.item (some (sampleRecord 0))] ++
          PopEvent.item none :: []) =
      some ({ handled := scanHandled (fun _ => false)
                  [PopEvent.raise, PopEvent.item (some (sampleRecord 0))],
              diagnostics := scanDiag (fun _ => false)
                  [PopEvent.raise, PopEvent.item (some (sampleRecord 0))] }, [])) :=
  ⟨by decide,
    C9_pop_inside_try (fun _ => false) [PopEvent.raise, PopEvent.item none]
      [PopEvent.raise, PopEvent.item (some (sampleRecord 0))] [] (by decide)⟩

/-! ### Orchestration: `main` (src/mproc_logging.py lines 77-107) -/

/-- One observable action of the orchestrator. -/
inductive Step where
  | createQueue : Step
  | startListener : Step
  | startWorker : Nat → Step
  | joinWorker : Nat → Step
  | pushSentinel : Step
  | joinListener : Step
deriving DecidableEq

/-- Number of worker processes started by `main` (`for _ in range(10)`). -/
def N_WORKERS : Nat := 10

/-- The sequence of actions performed by `main` (src/mproc_logging.py lines
87-107): create the queue, start the listener, start the ten workers, join
every worker, push the single `None` sentinel with `put_nowait`, join the
listener.  The sequence is unconditional — no step of `main` inspects the
listener's state, so it is the same whether or not the listener's
configuration step succeeded in the listener process. -/
def main_trace : List Step :=
  [Step.createQueue, Step.startListener]
    ++ (List.range N_WORKERS).map Step.startWorker
    ++ (List.range N_WORKERS).map Step.joinWorker
    ++ [Step.pushSentinel, Step.joinListener]

/-- Claim C2: the orchestrator pushes exactly one sentinel per run, and only
after every worker has been joined; only after pushing the sentinel does it
join the listener.  Every run performs, in this order: create queue, start
listener, start workers, join all workers, push one sentinel, join
listener. -/
theorem C2_orchestrator_order :
    main_trace.count Step.pushSentinel = 1 ∧
    main_trace.indexOf Step.createQueue < main_trace.indexOf Step.startListener ∧
    (∀ i < N_WORKERS,
      main_trace.indexOf Step.startListener < main_trace.indexOf (Step.startWorker i)) ∧
    (∀ i < N_WORKERS, ∀ j < N_WORKERS,
      main_trace.indexOf (Step.startWorker i) < main_trace.indexOf (Step.joinWorker j)) ∧
    (∀ i < N_WORKERS,
      main_trace.indexOf (Step.joinWorker i) < main_trace.indexOf Step.pushSentinel) ∧
    main_trace.indexOf Step.pushSentinel < main_trace.indexOf Step.joinListener ∧
    main_trace.getLast? = some Step.joinListener := by
  decide

/-! ### Listener process with its configuration step -/

/-- Outcome of a whole `listener_process` run. -/
inductive ListenerOutcome where
  | startupCrash : ListenerOutcome
  | finished : ListenerResult → List PopEvent → ListenerOutcome
  | blocked : ListenerOutcome
deriving DecidableEq

/-- `listener_process` (src/mproc_logging.py lines 28-45): it first runs
`configurer()`; if configuration raises (the output file cannot be opened at
all), the exception propagates uncaught — the `try` only encloses the loop
body — and the listener process dies before handling any event
(`startupCrash`).  Otherwise the loop runs over the queue trace. -/
def listener_process (configOk : Bool) (fails : LogRecord → Bool)
    (trace : List PopEvent) : ListenerOutcome :=
  if configOk then
    match listener_loop fails trace with
    | none => ListenerOutcome.blocked
    | some (res, unread) => ListenerOutcome.finished res unread
  else ListenerOutcome.startupCrash

/-- Claim C8, counterexample to the second half as stated.  The claim says a
startup failure (output file cannot be opened) "aborts the whole system before
any worker starts".  In the code the configuration failure only terminates the
listener process; `main` runs in a separate process, never observes it, and
its unconditional action sequence `main_trace` still starts every worker and
runs to completion (its last action is joining the listener). -/
theorem C8_counterexample :
    listener_process false (fun _ => false) [] = ListenerOutcome.startupCrash ∧
    Step.startWorker 0 ∈ main_trace ∧
    main_trace.getLast? = some Step.joinListener := by
  decide

/-- Claim C8 as amended: per-event errors never propagate out of the listener
loop — with configuration succeeded, the listener finishes normally at the
sentinel whatever per-event failures occur before it; a startup failure
terminates only the listener process, before any event is handled; the
orchestrator does not observe it and still starts its workers. -/
theorem C8_error_propagation (fails : LogRecord → Bool)
    (pre rest : List PopEvent) (hpre : PopEvent.item none ∉ pre) :
    listener_process true fails (pre ++ PopEvent.item none :: rest) =
      ListenerOutcome.finished
        { handled := scanHandled fails pre, diagnostics := scanDiag fails pre } rest ∧
    (∀ (f : LogRecord → Bool) (t : List PopEvent),
      listener_process false f t = ListenerOutcome.startupCrash) ∧
    Step.startWorker 0 ∈ main_trace := by
  refine ⟨?_, fun f t => rfl, by decide⟩
  simp [listener_process, listener_loop_reaches_sentinel fails pre rest hpre]

/-- Instantiation of `C8_error_propagation`: a raising pop and a record whose
handling fails are both contained; the listener still finishes at the
sentinel. -/
theorem C8_error_propagation_witness :
    PopEvent.item none ∉ [PopEvent.raise, PopEvent.item (some (sampleRecord 1))] ∧
    (listener_process true (fun _ => true)
        ([PopEvent.raise, PopEvent.item (some (sampleRecord 1))] ++
          PopEvent.item none :: []) =
      ListenerOutcome.finished
        { handled := scanHandled (fun _ => true)
            [PopEvent.raise, PopEvent.item (some (sampleRecord 1))],
          diagnostics := scanDiag (fun _ => true)
            [PopEvent.raise, PopEvent.item (some (sampleRecord 1))] } [] ∧
    (∀ (f : LogRecord → Bool) (t : List PopEvent),
      listener_process false f t = ListenerOutcome.startupCrash) ∧
    Step.startWorker 0 ∈ main_trace) :=
  ⟨by decide,
    C8_error_propagation (fun _ => true)
      [PopEvent.raise, PopEvent.item (some (sampleRecord 1))] [] (by decide)⟩

/-! ### RotatingSink (spec section 4.3) -/

/-- Modelled from the spec: the `RotatingFileHandler` instantiated at
src/rotating_logging.py line 12 and src/mproc_logging.py line 23 belongs to
the Python standard library, whose code is not part of this repository.  Its
state is the spec's RotationState: the lines of the current active file, the
current byte count, the backup files (`backups.head?` is backup index 1, the
newest; the last element is the oldest), and the two thresholds. -/
structure RotationState where
  active : List String
  activeBytes : Nat
  backups : List (List String)
  maxBytes : Nat
  maxBackups : Nat
deriving DecidableEq

/-- Modelled from the spec: the rotation algorithm of section 4.3 — close the
active file, shift existing backups up by one index discarding the oldest
beyond `maxBackups`, rename the active file to backup 1, open a new empty
active file and reset the byte counter; if `maxBackups` is 0, truncate the
active file in place instead. -/
def rollover (s : RotationState) : RotationState :=
  if s.maxBackups = 0 then { s with active := [], activeBytes := 0 }
  else { s with active := [], activeBytes := 0,
                backups := (s.active :: s.backups).take s.maxBackups }

/-- Modelled from the spec: `write(event)` appends the serialized line to the
active file, then checks whether the current size exceeds `maxBytes` and
rotates if it does — rotation happens only after the write completes. -/
def write (s : RotationState) (line : String) : RotationState :=
  let s' := { s with active := s.active ++ [line],
                     activeBytes := s.activeBytes + line.length }
  if s.maxBytes < s'.activeBytes then rollover s' else s'

/-- A sequence of writes to the sink. -/
def writeAll (s : RotationState) (lines : List String) : RotationState :=
  lines.foldl write s

/-- Total byte size of a list of lines. -/
def sumLen (lines : List String) : Nat := (lines.map String.length).sum

theorem rollover_active (s : RotationState) : (rollover s).active = [] := by
  unfold rollover; split <;> rfl

theorem rollover_activeBytes (s : RotationState) : (rollover s).activeBytes = 0 := by
  unfold rollover; split <;> rfl

theorem rollover_maxBytes (s : RotationState) : (rollover s).maxBytes = s.maxBytes := by
  unfold rollover; split <;> rfl

theorem rollover_maxBackups (s : RotationState) : (rollover s).maxBackups = s.maxBackups := by
  unfold rollover; split <;> rfl

/-- As long as the cumulative size stays within `maxBytes`, writes only append
to the active file: no rotation occurs. -/
theorem writeAll_no_rotation (lines : List String) :
    ∀ s : RotationState, s.activeBytes + sumLen lines ≤ s.maxBytes →
      writeAll s lines =
        { s with active := s.active ++ lines,
                 activeBytes := s.activeBytes + sumLen lines } := by
  induction lines with
  | nil => intro s _; simp [writeAll, sumLen]
  | cons l ls ih =>
      intro s h
      have hl : l.length + sumLen ls = sumLen (l :: ls) := by simp [sumLen]
      have hno : ¬ s.maxBytes < s.activeBytes + l.length := by
        simp [sumLen] at h; omega
      have hw : write s l = { s with active := s.active ++ [l],
                                     activeBytes := s.activeBytes + l.length } := by
        simp [write, hno]
      have hrec := ih { s with active := s.active ++ [l],
                               activeBytes := s.activeBytes + l.length }
        (by simp [sumLen] at h ⊢; omega)
      calc writeAll s (l :: ls)
          = writeAll (write s l) ls := rfl
        _ = _ := by rw [hw, hrec]; simp [sumLen]; omega

/-- Claim C4: rotation is triggered only after the write that crosses the
threshold completes, never mid-write.  When a write crosses `maxBytes` (and at
least one backup slot exists), the newest backup immediately afterwards
contains exactly the writes up to and including the crossing write, the active
file is empty with its byte counter reset, and any following writes that stay
within the threshold land wholly in the new active file — so each line is
fully written to exactly one file. -/
theorem C4_rotation_only_after_write (s : RotationState) (line : String)
    (hb : 0 < s.maxBackups)
    (hcross : s.maxBytes < s.activeBytes + line.length) :
    (write s line).backups.head? = some (s.active ++ [line]) ∧
    (write s line).active = [] ∧
    (write s line).activeBytes = 0 ∧
    ∀ more : List String, sumLen more ≤ s.maxBytes →
      (writeAll (write s line) more).active = more := by
  have hw : write s line =
      rollover { s with active := s.active ++ [line],
                        activeBytes := s.activeBytes + line.length } := by
    simp [write, hcross]
  obtain ⟨K, hK⟩ : ∃ K, s.maxBackups = K + 1 :=
    ⟨s.maxBackups - 1, by omega⟩
  have hhd : (write s line).backups.head? = some (s.active ++ [line]) := by
    rw [hw]; simp [rollover, hK]
  refine ⟨hhd, by rw [hw, rollover_active], by rw [hw, rollover_activeBytes], ?_⟩
  intro more hmore
  have h1 : (write s line).activeBytes = 0 := by rw [hw, rollover_activeBytes]
  have h2 : (write s line).maxBytes = s.maxBytes := by rw [hw, rollover_maxBytes]
  have h3 : (write s line).active = [] := by rw [hw, rollover_active]
  rw [writeAll_no_rotation more (write s line) (by rw [h1, h2]; simpa using hmore)]
  simp [h3]

/-- Instantiation of `C4_rotation_only_after_write` on a concrete state: the
write of "bbb" crosses the 4-byte threshold, the backup holds both lines, and
a following small write fills the fresh active file alone. -/
theorem C4_rotation_only_after_write_witness :
    0 < (RotationState.mk ["aa"] 2 [] 4 3).maxBackups ∧
    (RotationState.mk ["aa"] 2 [] 4 3).maxBytes <
      (RotationState.mk ["aa"] 2 [] 4 3).activeBytes + "bbb".length ∧
    (write (RotationState.mk ["aa"] 2 [] 4 3) "bbb").backups.head? =
      some (["aa"] ++ ["bbb"]) ∧
    (writeAll (write (RotationState.mk ["aa"] 2 [] 4 3) "bbb") ["mm"]).active = ["mm"] :=
  ⟨by decide, by decide,
    (C4_rotation_only_after_write (RotationState.mk ["aa"] 2 [] 4 3) "bbb"
      (by decide) (by decide)).1,
    (C4_rotation_only_after_write (RotationState.mk ["aa"] 2 [] 4 3) "bbb"
      (by decide) (by decide)).2.2.2 ["mm"] (by decide)⟩

/-- Driver for the spec's eviction scenario: performs one rotation for each
content list in turn, the content standing for the active file at the moment
that rotation fires. -/
def rotations (s : RotationState) (cs : List (List String)) : RotationState :=
  cs.foldl (fun st c => rollover { st with active := c }) s

theorem take_append_take {α : Type} (k : Nat) :
    ∀ (n : Nat) (l m : List α), n ≤ k →
      (l ++ m.take k).take n = (l ++ m).take n := by
  intro n l
  induction l generalizing n with
  | nil =>
      intro m h
      simp [List.take_take, Nat.min_eq_left h]
  | cons a l ih =>
      intro m h
      cases n with
      | zero => simp
      | succ n => simp [List.take_succ_cons, ih n m (by omega)]

theorem rotations_backups (cs : List (List String)) :
    ∀ s : RotationState, 0 < s.maxBackups → s.backups.length ≤ s.maxBackups →
      (rotations s cs).backups = (cs.reverse ++ s.backups).take s.maxBackups ∧
      (rotations s cs).maxBackups = s.maxBackups := by
  induction cs with
  | nil =>
      intro s _ hlen
      simpa [rotations] using (List.take_of_length_le hlen).symm
  | cons c cs ih =>
      intro s hpos hlen
      have hne : s.maxBackups ≠ 0 := by omega
      have hstep : rollover { s with active := c } =
          { s with active := [], activeBytes := 0,
                   backups := (c :: s.backups).take s.maxBackups } := by
        simp [rollover, hne]
      have hrec := ih { s with active := [], activeBytes := 0,
                               backups := (c :: s.backups).take s.maxBackups }
        hpos (by simp)
      have hmain : (rotations s (c :: cs)).backups =
          (cs.reverse ++ (c :: s.backups).take s.maxBackups).take s.maxBackups := by
        show (rotations (rollover { s with active := c }) cs).backups = _
        rw [hstep]; exact hrec.1
      refine ⟨?_, ?_⟩
      · rw [hmain, take_append_take s.maxBackups s.maxBackups _ _ (Nat.le_refl _)]
        simp
      · show (rotations (rollover { s with active := c }) cs).maxBackups = _
        rw [hstep]; exact hrec.2

/-- Claim C5: with `maxBackups = K`, each rotation shifts every existing
backup from index `k` to `k + 1` and discards the oldest beyond `K`.  Starting
from no backups, after `K + 1` rotations whose active contents were `c0`
first and then the `K` contents `cs`, exactly `K` backup files exist — the
reversed `cs`, newest first — and the content `c0` of the oldest original
backup is no longer present in any backup file. -/
theorem C5_backup_eviction (K : Nat) (hK : 0 < K) (c0 : List String)
    (cs : List (List String)) (s0 : RotationState)
    (hmb : s0.maxBackups = K) (hb0 : s0.backups = [])
    (hlen : cs.length = K) (hnotin : c0 ∉ cs) :
    (rotations s0 (c0 :: cs)).backups = cs.reverse ∧
    (rotations s0 (c0 :: cs)).backups.length = K ∧
    c0 ∉ (rotations s0 (c0 :: cs)).backups := by
  have h := (rotations_backups (c0 :: cs) s0 (by omega) (by simp [hb0])).1
  have hrev : ((c0 :: cs).reverse ++ s0.backups).take s0.maxBackups = cs.reverse := by
    rw [hb0, hmb]
    simp only [List.append_nil, List.reverse_cons]
    exact List.take_left' (by simpa using hlen)
  rw [h, hrev]
  exact ⟨rfl, by simpa using hlen, by simpa using hnotin⟩

/-- Instantiation of `C5_backup_eviction` with `K = 2`: after three rotations
the two backups are the two newest contents and the oldest content is gone. -/
theorem C5_backup_eviction_witness :
    (0 < 2 ∧ ([["b1"], ["b2"]] : List (List String)).length = 2 ∧
      (["old"] : List String) ∉ [["b1"], ["b2"]]) ∧
    ((rotations (RotationState.mk [] 0 [] 100 2) [["old"], ["b1"], ["b2"]]).backups
        = [["b2"], ["b1"]] ∧
      (rotations (RotationState.mk [] 0 [] 100 2) [["old"], ["b1"], ["b2"]]).backups.length
        = 2 ∧
      (["old"] : List String) ∉
        (rotations (RotationState.mk [] 0 [] 100 2) [["old"], ["b1"], ["b2"]]).backups) :=
  ⟨⟨by decide, by decide, by decide⟩, by
    have h := C5_backup_eviction 2 (by decide) ["old"] [["b1"], ["b2"]]
      (RotationState.mk [] 0 [] 100 2) rfl rfl (by decide) (by decide)
    simpa using h⟩

/-! ### AggregatorQueue (spec section 4.1) -/

/-- Modelled from the spec: the `multiprocessing.Queue(-1)` created at
src/mproc_logging.py line 88 belongs to the Python standard library, whose
code is not part of this repository.  The spec's AggregatorQueue is an
unbounded FIFO channel of records and the `None` sentinel; `items` lists its
content, oldest first. -/
structure AggQueue where
  items : List (Option LogRecord)
deriving DecidableEq

/-- Modelled from the spec: `push` is non-blocking and never fails under
resource pressure (unbounded buffer); it is a total function appending at the
back. -/
def push (q : AggQueue) (it : Option LogRecord) : AggQueue :=
  AggQueue.mk (q.items ++ [it])

/-- Modelled from the spec: `pop` blocks the caller until an item is
available; `none` models the caller still blocked on an empty queue, so no
item is ever returned from an empty queue. -/
def pop (q : AggQueue) : Option (Option LogRecord × AggQueue) :=
  match q.items with
  | [] => none
  | x :: xs => some (x, AggQueue.mk xs)

/-- `n` successive pops, stopping early if the queue empties. -/
def popN : Nat → AggQueue → List (Option LogRecord) × AggQueue
  | 0, q => ([], q)
  | n + 1, q =>
      match pop q with
      | none => ([], q)
      | some (x, q') =>
          let p := popN n q'
          (x :: p.1, p.2)

theorem foldl_push (l : List (Option LogRecord)) :
    ∀ its : List (Option LogRecord),
      (l.foldl push (AggQueue.mk its)).items = its ++ l := by
  induction l with
  | nil => intro its; simp
  | cons x xs ih =>
      intro its
      calc ((x :: xs).foldl push (AggQueue.mk its)).items
          = (xs.foldl push (AggQueue.mk (its ++ [x]))).items := rfl
        _ = its ++ x :: xs := by rw [ih]; simp

theorem popN_drains (its : List (Option LogRecord)) :
    popN its.length (AggQueue.mk its) = (its, AggQueue.mk []) := by
  induction its with
  | nil => rfl
  | cons x xs ih => simp [popN, pop, ih]

/-- Claim C6: the aggregator queue's push never blocks and never fails under
resource pressure — it is a total function that appends its item for every
queue state; pop returns no item while the queue is empty (the caller stays
blocked) and otherwise yields the oldest item; and the items pushed by any
single producer are popped in exactly the order they were pushed (FIFO). -/
theorem C6_queue_contract :
    (∀ (q : AggQueue) (it : Option LogRecord), (push q it).items = q.items ++ [it]) ∧
    pop (AggQueue.mk []) = none ∧
    (∀ (x : Option LogRecord) (xs : List (Option LogRecord)),
      pop (AggQueue.mk (x :: xs)) = some (x, AggQueue.mk xs)) ∧
    (∀ l : List (Option LogRecord),
      popN l.length (l.foldl push (AggQueue.mk [])) = (l, AggQueue.mk [])) := by
  refine ⟨fun q it => rfl, rfl, fun x xs => rfl, fun l => ?_⟩
  have h : (l.foldl push (AggQueue.mk [])).items = l := by simpa using foldl_push l []
  have hq : l.foldl push (AggQueue.mk []) = AggQueue.mk l :=
    calc l.foldl push (AggQueue.mk [])
        = AggQueue.mk (l.foldl push (AggQueue.mk [])).items := rfl
      _ = AggQueue.mk l := by rw [h]
  rw [hq]
  exact popN_drains l

/-! ### WorkerProcess (src/mproc_logging.py lines 48-74) -/

/-- The records emitted by one run of `worker_process`
(src/mproc_logging.py lines 60-74): one record per loop iteration, logged at
`LEVEL` through the logger `pick i` chosen from `LOGGERS` by `choice`, with
the message built from the process name, the step index and the slept time.
`pick` and `slept` parameterize the run's random draws, `pid` its process id,
`count` the iteration count (`range(10)` in the source, so `count = 10` for
the source worker). -/
def worker_emits (pname : String) (pick slept : Nat → String)
    (pid count : Nat) : List LogRecord :=
  (List.range count).map fun i =>
    { name := pick i, levelno := LEVEL,
      msg := "Child proces \"" ++ pname ++ "\" step " ++ toString i ++
             ": slept for " ++ slept i ++ "[s] ",
      process := pid }

theorem worker_emits_length (pname : String) (pick slept : Nat → String)
    (pid count : Nat) : (worker_emits pname pick slept pid count).length = count := by
  simp [worker_emits]

/-- `zs` is an arbitrary interleaving of `xs` and `ys` that keeps the
relative order of each: the possible arrival orders at the queue of the
pushes of two concurrent producers. -/
inductive Interleave {α : Type} : List α → List α → List α → Prop
  | nil : Interleave [] [] []
  | left {x : α} {xs ys zs : List α} :
      Interleave xs ys zs → Interleave (x :: xs) ys (x :: zs)
  | right {y : α} {xs ys zs : List α} :
      Interleave xs ys zs → Interleave xs (y :: ys) (y :: zs)

theorem Interleave.length {α : Type} {xs ys zs : List α}
    (h : Interleave xs ys zs) : zs.length = xs.length + ys.length := by
  induction h with
  | nil => rfl
  | left _ ih => simp [ih]; omega
  | right _ ih => simp [ih]; omega

theorem Interleave.append {α : Type} (xs ys : List α) :
    Interleave xs ys (xs ++ ys) := by
  induction xs with
  | nil =>
      induction ys with
      | nil => exact Interleave.nil
      | cons y ys ih => exact Interleave.right ih
  | cons x xs ih => exact Interleave.left ih

/-- Claim C7: in the concrete scenario where three producers each emit five
events — the queue receiving any interleaving of their three push sequences —
followed by the orchestrator's sentinel, the consumer processes exactly 15
events in arrival order and then stops, and the output file holds exactly 15
lines when no rotation occurs (cumulative size within `maxBytes`). -/
theorem C7_three_producers_fifteen_events
    (p1 p2 p3 : String) (k1 k2 k3 s1 s2 s3 : Nat → String) (i1 i2 i3 : Nat)
    (w23 events : List LogRecord)
    (h23 : Interleave (worker_emits p2 k2 s2 i2 5) (worker_emits p3 k3 s3 i3 5) w23)
    (hev : Interleave (worker_emits p1 k1 s1 i1 5) w23 events) :
    events.length = 15 ∧
    listener_loop (fun _ => false) (asItems events ++ [PopEvent.item none]) =
      some ({ handled := events, diagnostics := 0 }, []) ∧
    ∀ (ser : LogRecord → String) (s0 : RotationState),
      s0.active = [] → s0.activeBytes = 0 →
      sumLen (events.map ser) ≤ s0.maxBytes →
      (writeAll s0 (events.map ser)).active.length = 15 := by
  have hlen : events.length = 15 := by
    have h1 := hev.length
    have h2 := h23.length
    rw [worker_emits_length] at h1 h2
    rw [worker_emits_length] at h2
    omega
  refine ⟨hlen, ?_, ?_⟩
  · rw [show asItems events ++ [PopEvent.item none] =
        asItems events ++ PopEvent.item none :: [] from rfl,
      listener_loop_reaches_sentinel _ _ _ (asItems_no_sentinel events)]
    simp [scanHandled_asItems, scanDiag_asItems]
  · intro ser s0 hact hbytes hfit
    rw [writeAll_no_rotation (events.map ser) s0 (by omega)]
    simp [hact, hlen]

/-- The three producers of the spec's concrete scenario, with fixed random
draws. -/
def scenarioWorker (pname : String) (pid : Nat) : List LogRecord :=
  worker_emits pname (fun _ => "banana") (fun _ => "0.5") pid 5

/-- Instantiation of `C7_three_producers_fifteen_events` on the sequential
arrival order of the three producers' events. -/
theorem C7_three_producers_fifteen_events_witness :
    (scenarioWorker "w1" 1 ++ (scenarioWorker "w2" 2 ++ scenarioWorker "w3" 3)).length
        = 15 ∧
    listener_loop (fun _ => false)
        (asItems (scenarioWorker "w1" 1 ++ (scenarioWorker "w2" 2 ++ scenarioWorker "w3" 3))
          ++ [PopEvent.item none]) =
      some ({ handled :=
                scenarioWorker "w1" 1 ++ (scenarioWorker "w2" 2 ++ scenarioWorker "w3" 3),
              diagnostics := 0 }, []) ∧
    ∀ (ser : LogRecord → String) (s0 : RotationState),
      s0.active = [] → s0.activeBytes = 0 →
      sumLen ((scenarioWorker "w1" 1 ++ (scenarioWorker "w2" 2 ++ scenarioWorker "w3" 3)).map ser)
          ≤ s0.maxBytes →
      (writeAll s0
          ((scenarioWorker "w1" 1 ++ (scenarioWorker "w2" 2 ++ scenarioWorker "w3" 3)).map ser)).active.length
        = 15 :=
  C7_three_producers_fifteen_events "w1" "w2" "w3"
    (fun _ => "banana") (fun _ => "banana") (fun _ => "banana")
    (fun _ => "0.5") (fun _ => "0.5") (fun _ => "0.5") 1 2 3
    (scenarioWorker "w2" 2 ++ scenarioWorker "w3" 3)
    (scenarioWorker "w1" 1 ++ (scenarioWorker "w2" 2 ++ scenarioWorker "w3" 3))
    (Interleave.append _ _) (Interleave.append _ _)

/-! ### Producer-side level check, consumer-side absence of filtering -/

/-- Modelled from the spec together with `worker_configurer`
(src/mproc_logging.py lines 48-57): the severity filter level is applied
before enqueue — `logger.log(level, ...)` creates and enqueues one record
exactly when `level` passes the root logger's level, which `worker_configurer`
sets to `DEBUG`; the `QueueHandler` then puts that one record in the queue. -/
def worker_log (rootLevel : Nat) (r : LogRecord) : List LogRecord :=
  if rootLevel ≤ r.levelno then [r] else []

/-- The records one worker run actually enqueues, given the root level set by
`worker_configurer`. -/
def worker_enqueued (rootLevel : Nat) (pname : String) (pick slept : Nat → String)
    (pid count : Nat) : List LogRecord :=
  (worker_emits pname pick slept pid count).flatMap (worker_log rootLevel)

theorem flatMap_worker_log (lvl : Nat) (l : List LogRecord)
    (h : ∀ r ∈ l, lvl ≤ r.levelno) : l.flatMap (worker_log lvl) = l := by
  induction l with
  | nil => rfl
  | cons r rs ih =>
      have hr : worker_log lvl r = [r] := by
        simp [worker_log, h r (List.mem_cons_self r rs)]
      have hrs := ih fun x hx => h x (List.mem_cons_of_mem r hx)
      simp [List.flatMap_cons, hr, hrs]

/-- Claim C10: the listener applies no severity filtering on the consumer
side — every non-sentinel record popped from the queue is dispatched to the
logger named in the record whatever its severity (the run handles all the
events of the trace, for an arbitrary assignment of `levelno` fields); and
with the workers' root level set to `DEBUG`, every logging action a worker
performs (each at `LEVEL = DEBUG`) enqueues exactly one record, so a worker
run of `count` actions enqueues exactly `count` records that the listener
dispatches. -/
theorem C10_no_consumer_side_filtering (pname : String) (pick slept : Nat → String)
    (pid count : Nat) :
    worker_enqueued DEBUG pname pick slept pid count =
      worker_emits pname pick slept pid count ∧
    (worker_enqueued DEBUG pname pick slept pid count).length = count ∧
    ∀ (events : List LogRecord) (rest : List PopEvent),
      listener_loop (fun _ => false) (asItems events ++ PopEvent.item none :: rest) =
        some ({ handled := events, diagnostics := 0 }, rest) := by
  have hall : ∀ r ∈ worker_emits pname pick slept pid count, DEBUG ≤ r.levelno := by
    intro r hr
    simp [worker_emits] at hr
    obtain ⟨i, _, rfl⟩ := hr
    simp [LEVEL]
  have h1 : worker_enqueued DEBUG pname pick slept pid count =
      worker_emits pname pick slept pid count :=
    flatMap_worker_log DEBUG _ hall
  refine ⟨h1, by rw [h1, worker_emits_length], ?_⟩
  intro events rest
  rw [listener_loop_reaches_sentinel _ _ _ (asItems_no_sentinel events)]
  simp [scanHandled_asItems, scanDiag_asItems]

end KsgLogging
